import Mathlib

/-!
Verification development for the soong_zip archive builder
(`cmd/soong_zip/soong_zip.go`).

The Go source is shallowly embedded as executable Lean definitions.  Pure
functions become Lean functions; the concurrent writer loop becomes an
explicit state machine over the (deterministic) channel contents; the flate
compressor, which lives in Go's standard library and is out of scope, is
abstracted as a function parameter; `rate_limit.go` is not part of the
sources and its `MemoryRateLimiter` is modelled from the specification.
Go loops are embedded with explicit fuel chosen at the wrapper so that every
definition is total and kernel-evaluable; each fuel value strictly exceeds
the number of iterations the corresponding Go loop can perform on that
input, so the fuel case is never reached.
-/

namespace SoongZip

/-- Block size used during parallel compression of a single file
(soong_zip.go:42, `parallelBlockSize = 1 * 1024 * 1024`). -/
def parallelBlockSize : Nat := 1 * 1024 * 1024

/-- Minimum file size to use parallel compression
(soong_zip.go:47, `minParallelFileSize = parallelBlockSize * 6`). -/
def minParallelFileSize : Nat := parallelBlockSize * 6

/-- Size of the ZIP compression window, 32 KiB (soong_zip.go:50). -/
def windowSize : Nat := 32 * 1024

/-- ZIP method constant `zip.Store` (method 0) from the zip collaborator
package referenced by the source. -/
def zipStore : UInt16 := 0

/-- ZIP method constant `zip.Deflate` (method 8) from the zip collaborator
package referenced by the source. -/
def zipDeflate : UInt16 := 8

/-! ### Embedding of Go `path/filepath.Clean` and `path/filepath.Dir` (unix)

`writeDirectory` (soong_zip.go:791-837) cleans its argument and walks up the
directory chain with `filepath.Dir`, so both library functions are embedded
here, following the Go implementation of `Clean` (the lazybuf algorithm) with
the buffer represented as a `List Char`. -/

/-- Inner loop of the `..` backtracking step of `Clean`: Go's
`for out.w > dotdot && !os.IsPathSeparator(out.index(out.w)) { out.w-- }`,
phrased over the buffer with the most recently dropped character tracked
explicitly (`out.index(out.w)` is exactly the character dropped last). -/
def backtrackLoop (dotdot : Nat) : Nat → List Char → Char → List Char
  | 0, out, _ => out
  | fuel + 1, out, dropped =>
    if dotdot < out.length ∧ dropped ≠ '/' then
      match out.getLast? with
      | some c => backtrackLoop dotdot fuel out.dropLast c
      | none => out
    else out

/-- Entry to the `..` backtracking of `Clean`: Go's unconditional `out.w--`
followed by `backtrackLoop`.  Go only reaches this with `out.w > dotdot`, so
the buffer is nonempty there. -/
def backtrackStart (dotdot : Nat) (out : List Char) : List Char :=
  match out.getLast? with
  | none => out
  | some c => backtrackLoop dotdot out.length out.dropLast c

/-- The `..` element case of `Clean`'s main loop (the inner `switch` of the
Go implementation): backtrack when the buffer extends past `dotdot`,
otherwise append a literal `..` element when the path is not rooted. -/
def dotdotApply (rooted : Bool) (out : List Char) (dotdot : Nat) :
    List Char × Nat :=
  if dotdot < out.length then
    (backtrackStart dotdot out, dotdot)
  else if !rooted then
    let out1 := if out.length ≠ 0 then out ++ ['/'] else out
    let out2 := out1 ++ ['.', '.']
    (out2, out2.length)
  else (out, dotdot)

/-- Main loop of Go `filepath.Clean` (unix separators).  `rest` is the
unread remainder `path[r:]`; each Go iteration consumes at least one
character, so fuel `rest.length + 1` never runs out. -/
def cleanLoop (rooted : Bool) : Nat → List Char → Nat → List Char → List Char
  | 0, out, _, _ => out
  | _ + 1, out, _, [] => out
  | fuel + 1, out, dotdot, '/' :: rs => cleanLoop rooted fuel out dotdot rs
  | fuel + 1, out, dotdot, ['.'] => cleanLoop rooted fuel out dotdot []
  | fuel + 1, out, dotdot, '.' :: '/' :: rs =>
    cleanLoop rooted fuel out dotdot ('/' :: rs)
  | fuel + 1, out, dotdot, ['.', '.'] =>
    let (out', dotdot') := dotdotApply rooted out dotdot
    cleanLoop rooted fuel out' dotdot' []
  | fuel + 1, out, dotdot, '.' :: '.' :: '/' :: rs =>
    let (out', dotdot') := dotdotApply rooted out dotdot
    cleanLoop rooted fuel out' dotdot' ('/' :: rs)
  | fuel + 1, out, dotdot, c :: rs =>
    let element := (c :: rs).takeWhile (fun ch => ch ≠ '/')
    let rs' := (c :: rs).dropWhile (fun ch => ch ≠ '/')
    let out' :=
      if (rooted ∧ out.length ≠ 1) ∨ (¬rooted ∧ out.length ≠ 0) then
        out ++ ['/']
      else out
    cleanLoop rooted fuel (out' ++ element) dotdot rs'

/-- Embedding of Go `path/filepath.Clean` for unix paths. -/
def cleanGo (path : String) : String :=
  match path.toList with
  | [] => "."
  | c :: cs =>
    let rooted := c = '/'
    let start : List Char × Nat × List Char :=
      if rooted then (['/'], 1, cs) else ([], 0, c :: cs)
    let res := cleanLoop rooted (path.length + 1) start.1 start.2.1 start.2.2
    if res.length = 0 then "." else String.mk res

/-- Embedding of Go `path/filepath.Dir` for unix paths: drop the trailing
non-separator characters, then `Clean` what remains (`Clean ""` is `"."`). -/
def dirGo (path : String) : String :=
  let kept := (path.toList.reverse.dropWhile (fun ch => ch ≠ '/')).reverse
  cleanGo (String.mk kept)

-- Sanity checks: the embedded Clean/Dir agree with Go path/filepath
-- on representative inputs.
example : cleanGo "META-INF" = "META-INF" := by decide
example : cleanGo "a/b/../c" = "a/c" := by decide
example : cleanGo "../a" = "../a" := by decide
example : cleanGo "/.." = "/" := by decide
example : cleanGo "" = "." := by decide
example : cleanGo "a/" = "a" := by decide
example : cleanGo "//a//b/" = "/a/b" := by decide
example : cleanGo "./x" = "x" := by decide
example : dirGo "META-INF" = "." := by decide
example : dirGo "a/b/c" = "a/b" := by decide
example : dirGo "/" = "/" := by decide
example : dirGo "x" = "." := by decide
example : dirGo "a/b/" = "a/b" := by decide

/-! ### Errors

The distinct error kinds of the tool, by raise site. -/

/-- Error kinds of soong_zip, by where they are raised. -/
inductive ZErr
  /-- `os.Create` of the output failed (soong_zip.go:324). -/
  | createFailed
  /-- `-m` given without `-jar` (soong_zip.go:361). -/
  | manifestRequiresJar
  /-- a destination is both a directory and a file (soong_zip.go:493/536/803). -/
  | dirIsFile (dest dirSrc fileSrc : String)
  /-- two files map to the same destination (soong_zip.go:496/539). -/
  | twoFiles (dest src1 src2 : String)
  /-- producer-side path or read failure, posted to the error channel. -/
  | producerIOError
  /-- worker compression failure, posted to the error channel. -/
  | workerError
  /-- writer-side encoder or copy failure inside the select loop. -/
  | writerIOError
deriving DecidableEq, Repr

/-! ### Directory bookkeeping and `writeDirectory` (soong_zip.go:776-837)

The two process-local maps `createdDirs` and `createdFiles` are embedded as
association lists (Go map insertion of a fresh key appends; only
lookup and fresh-key insertion are used by the source). -/

/-- The two bookkeeping maps of `zipWriter` (soong_zip.go:194-195). -/
structure ZState where
  createdDirs : List (String × String)
  createdFiles : List (String × String)
deriving DecidableEq, Repr

/-- Go map lookup on an association list. -/
def lookupAssoc (m : List (String × String)) (k : String) : Option String :=
  (m.find? (fun p => p.1 = k)).map (fun p => p.2)

/-- The part of a directory entry's file header that the claims are about:
the entry name and the extra-field bytes (the mode and the pinned
modification time are set to constants by the source and are not modelled). -/
structure DirEntryHeader where
  name : String
  extra : List UInt8
deriving DecidableEq, Repr

/-- Embedding of `zipWriter.addExtraField` (soong_zip.go:776-787): append
the two header bytes in little-endian order, the two little-endian length
bytes, then the data. -/
def addExtraField (extra : List UInt8) (fieldHeader0 fieldHeader1 : UInt8)
    (data : List UInt8) : List UInt8 :=
  extra ++ [fieldHeader1, fieldHeader0]
    ++ [UInt8.ofNat (data.length % 256), UInt8.ofNat (data.length / 256)]
    ++ data

/-- Discovery loop of `writeDirectory` (soong_zip.go:796-811): walk `dir` up
through its parents until hitting an already-created directory, `""` or
`"."`, collecting the uncreated directories (parents first) and recording
them in `createdDirs`.  Returns the updated state, the collected `zipDirs`,
and the final value of the mutated loop variable `dir` (which the emission
code later compares against `"META-INF/"`, soong_zip.go:822).  Each
iteration inserts a fresh key and moves to `filepath.Dir dir`, so at most
`dir.length + 2` iterations can occur and the fuel case is unreachable. -/
def discoverDirs (src : String) :
    Nat → String → ZState → List String →
    Except ZErr (ZState × List String × String)
  | 0, dir, st, zipDirs => .ok (st, zipDirs, dir)
  | fuel + 1, dir, st, zipDirs =>
    if dir = "" ∨ dir = "." then .ok (st, zipDirs, dir)
    else if (lookupAssoc st.createdDirs dir).isSome then .ok (st, zipDirs, dir)
    else
      match lookupAssoc st.createdFiles dir with
      | some prev => .error (.dirIsFile dir src prev)
      | none =>
        discoverDirs src fuel (dirGo dir)
          { st with createdDirs := st.createdDirs ++ [(dir, src)] }
          (dir :: zipDirs)

/-- The 4 extra-field bytes the source intends for the `META-INF/` directory
entry in jar mode: `addExtraField(dirHeader, [2]byte{0xca, 0xfe}, []byte{})`
(soong_zip.go:824). -/
def cafeExtra : List UInt8 := addExtraField [] 0xca 0xfe []

/-- Embedding of `zipWriter.writeDirectory` (soong_zip.go:791-837): clean
the argument, run the discovery loop, then, when directory emission is
enabled, emit one header per uncreated directory.  The extra field is added
exactly when `*emulateJar && dir == "META-INF/"` holds for the post-loop
value of the loop variable `dir` — faithfully reproducing that the source
compares the mutated `dir`, not the emitted `cleanDir`. -/
def writeDirectory (emulateJar directoriesFlag : Bool) (dirArg src : String)
    (st : ZState) : Except ZErr (ZState × List DirEntryHeader) :=
  let dir := cleanGo dirArg
  match discoverDirs src (dir.length + 2) dir st [] with
  | .error e => .error e
  | .ok (st', zipDirs, dirFinal) =>
    let headers :=
      if directoriesFlag then
        zipDirs.map (fun cleanDir =>
          { name := cleanDir ++ "/",
            extra :=
              if emulateJar ∧ dirFinal = "META-INF/" then
                addExtraField [] 0xca 0xfe []
              else [] })
      else []
    .ok (st', headers)

-- Sanity checks: the CAFE extra-field bytes and the dead condition.
example : cafeExtra = [0xfe, 0xca, 0x00, 0x00] := by decide
example :
    writeDirectory true true "META-INF" "mf.txt" ⟨[], []⟩ =
      .ok (⟨[("META-INF", "mf.txt")], []⟩, [{ name := "META-INF/", extra := [] }]) := by
  rfl

/-! ### Error and cleanup control flow of `zipWriter.write` and `main`
(soong_zip.go:219-285, 323-473)

`write` creates the output file, registers a deferred cleanup that removes
the output *only when the local variable `err` is non-nil*, checks the
manifest/jar combination, and then runs the producer/writer loop.  Every
return site inside the loop assigns the local `err` before returning, so the
deferred removal fires for loop errors; the manifest check instead executes
`return errors.New(...)` without assigning `err`, so for that error the
deferred removal does not fire.  The loop itself is abstracted by its
outcome `loopResult`. -/

/-- Outcome of a `write` call: the returned error, whether the output file
was created, and whether the deferred cleanup removed it. -/
structure WriteOutcome where
  result : Option ZErr
  outputCreated : Bool
  outputRemoved : Bool
deriving DecidableEq, Repr

/-- Embedding of the error/cleanup control flow of `zipWriter.write`
(soong_zip.go:323-473).  `createResult` abstracts `os.Create`, `loopResult`
abstracts the producer/writer select loop (`none` = clean completion). -/
def writeFlow (createResult : Option ZErr) (manifestArg : String)
    (emulateJar : Bool) (loopResult : Option ZErr) : WriteOutcome :=
  match createResult with
  | some e => { result := some e, outputCreated := false, outputRemoved := false }
  | none =>
    if manifestArg ≠ "" ∧ ¬emulateJar then
      -- soong_zip.go:361 `return errors.New(...)`: the local err is still
      -- nil here, so the deferred `if err != nil { os.Remove(out) }` at
      -- soong_zip.go:330-334 does not fire.
      { result := some .manifestRequiresJar, outputCreated := true,
        outputRemoved := false }
    else
      match loopResult with
      | some e =>
        -- every return site of the select loop assigns the local err first
        { result := some e, outputCreated := true, outputRemoved := true }
      | none => { result := none, outputCreated := true, outputRemoved := false }

/-- Embedding of `main`'s exit-code logic (soong_zip.go:248-251 and
280-285): missing `-o` calls `usage()` which exits 2; any error returned by
`write` is printed and the process exits 1; otherwise exit 0. -/
def mainExitCode (outArg : String) (manifestArg : String) (emulateJar : Bool)
    (createResult : Option ZErr) (loopResult : Option ZErr) : Nat :=
  if outArg = "" then 2
  else
    match (writeFlow createResult manifestArg emulateJar loopResult).result with
    | some _ => 1
    | none => 0

-- Sanity checks: error/cleanup control flow on concrete inputs.
example :
    writeFlow none "mf.txt" false none =
      { result := some .manifestRequiresJar, outputCreated := true,
        outputRemoved := false } := by decide
example : (writeFlow none "" false (some .writerIOError)).outputRemoved = true := by decide
example : mainExitCode "out.zip" "mf.txt" false none none = 1 := by decide
example : mainExitCode "" "" false none none = 2 := by decide

/-! ### Block compressor `zipWriter.compressBlock` (soong_zip.go:671-703)

The DEFLATE encoder itself is Go's `compress/flate`, an external
collaborator; its output bytes are abstracted as a function of the
dictionary, the input, and the last-block flag.  What the source decides —
where the `flate.Writer` comes from, whether it is returned to the pool, and
whether the stream is closed or sync-flushed — is recorded in a trace. -/

/-- Abstract semantics of the external `compress/flate` encoder: dictionary,
input and last-block flag to output bytes (`Close` emits a final block,
`Flush` a sync marker, so the flag is part of the abstract output). -/
def FlateFn : Type := List UInt8 → List UInt8 → Bool → List UInt8

/-- Where `compressBlock` obtained its `flate.Writer`. -/
inductive FwSource
  /-- `flate.NewWriterDict` — fresh writer seeded with the dictionary. -/
  | freshWithDict
  /-- `z.compressorPool.Get()` succeeded and the writer was `Reset`. -/
  | pooledReset
  /-- pool miss: `flate.NewWriter` — fresh writer without dictionary. -/
  | freshNew
deriving DecidableEq, Repr

/-- How `compressBlock` terminated the stream. -/
inductive FinishKind
  /-- `fw.Close()` — emits a final block. -/
  | closed
  /-- `fw.Flush()` — sync flush, output ends on a byte boundary. -/
  | flushed
deriving DecidableEq, Repr

/-- Trace of one `compressBlock` call: writer provenance, stream
termination, and whether `defer z.compressorPool.Put(fw)` was registered. -/
structure BlockTrace where
  source : FwSource
  finished : FinishKind
  returnedToPool : Bool
deriving DecidableEq, Repr

/-- Embedding of `zipWriter.compressBlock` (soong_zip.go:671-703).
`poolHit` abstracts whether `z.compressorPool.Get()` returned a writer.
With a non-empty dictionary the writer is created by `flate.NewWriterDict`
and never returned to the pool; otherwise it is taken from the pool (reset)
or freshly created, and `defer z.compressorPool.Put(fw)` returns it when
the call completes.  `last` selects `Close` versus `Flush`. -/
def compressBlock (flate : FlateFn) (poolHit : Bool)
    (dict input : List UInt8) (last : Bool) : BlockTrace × List UInt8 :=
  if 0 < dict.length then
    ({ source := .freshWithDict,
       finished := if last then .closed else .flushed,
       returnedToPool := false }, flate dict input last)
  else
    ({ source := if poolHit then .pooledReset else .freshNew,
       finished := if last then .closed else .flushed,
       returnedToPool := true }, flate dict input last)

/-! ### File headers -/

/-- The file-header fields of `zip.FileHeader` used by the source paths
under verification. -/
structure FileHeader where
  name : String
  method : UInt16
  uncompressedSize64 : Nat
  /-- the legacy 32-bit size field, consulted by `writeFileContents` when
  the 64-bit field is zero (soong_zip.go:583-585). -/
  uncompressedSize : Nat
deriving DecidableEq, Repr

/-- The `fileSize` computed by `writeFileContents` (soong_zip.go:582-585):
the 64-bit size, falling back to the 32-bit field when it is zero. -/
def fileSizeOf (h : FileHeader) : Nat :=
  if h.uncompressedSize64 ≠ 0 then h.uncompressedSize64 else h.uncompressedSize

/-! ### Single-shot path `zipWriter.compressWholeFile` (soong_zip.go:705-774) -/

/-- Result of the single-shot path: the final method and the single buffer
handed to the only future reader. -/
structure WholeFileResult where
  method : UInt16
  payload : List UInt8
deriving DecidableEq, Repr

/-- Embedding of `zipWriter.compressWholeFile` (soong_zip.go:705-774),
with the CRC accumulation elided (it does not affect method or payload).
For a DEFLATE entry the whole input is compressed with an empty dictionary
and `last = true`; the compressed bytes are used only when strictly smaller
than the 64-bit uncompressed size, otherwise the method is downgraded to
STORE and the raw bytes are used.  STORE entries always carry the raw
bytes.  Exactly one future reader is produced either way. -/
def compressWholeFile (flate : FlateFn) (poolHit : Bool) (h : FileHeader)
    (content : List UInt8) : WholeFileResult :=
  if h.method = zipDeflate then
    let compressed := (compressBlock flate poolHit [] content true).2
    if compressed.length < h.uncompressedSize64 then
      { method := zipDeflate, payload := compressed }
    else
      { method := zipStore, payload := content }
  else
    { method := zipStore, payload := content }

/-! ### Split path of `zipWriter.writeFileContents` (soong_zip.go:565-669)

`io.NewSectionReader(r, off, n)` followed by `ioutil.ReadAll` yields the
bytes `content[off : off+n]` (clipped to the end of the source); this is
embedded as `sectionBytes`. -/

/-- Bytes delivered by `ioutil.ReadAll(io.NewSectionReader(r, off, n))`. -/
def sectionBytes (content : List UInt8) (off n : Nat) : List UInt8 :=
  (content.drop off).take n

/-- One per-range compression task of the split path: the range start, the
section handed to the worker, the dictionary, and the last-block flag. -/
structure BlockTask where
  start : Nat
  data : List UInt8
  dict : List UInt8
  last : Bool
deriving DecidableEq, Repr

/-- The loop body of soong_zip.go:604-622 for one value of `start`. -/
def mkBlockTask (content : List UInt8) (fileSize start : Nat) : BlockTask :=
  { start := start,
    data := sectionBytes content start parallelBlockSize,
    dict :=
      if windowSize ≤ start then
        sectionBytes content (start - windowSize) windowSize
      else [],
    last := !decide (start + parallelBlockSize < fileSize) }

/-- The `for start := 0; start < fileSize; start += parallelBlockSize` loop
of the split path (soong_zip.go:604-622), generating the per-range tasks in
dispatch order.  The loop performs at most `fileSize / parallelBlockSize + 1`
iterations, so the fuel case is unreachable. -/
def blockTasksAux (content : List UInt8) (fileSize : Nat) :
    Nat → Nat → List BlockTask
  | 0, _ => []
  | fuel + 1, start =>
    if start < fileSize then
      mkBlockTask content fileSize start
        :: blockTasksAux content fileSize fuel (start + parallelBlockSize)
    else []

/-- All per-range tasks of the split path, in dispatch (range) order. -/
def blockTasks (content : List UInt8) (fileSize : Nat) : List BlockTask :=
  blockTasksAux content fileSize (fileSize / parallelBlockSize + 1) 0

/-- Which compression path `writeFileContents` takes for an entry
(soong_zip.go:587): the split (parallel, per-block) path exactly when the
declared method is DEFLATE and `fileSize >= minParallelFileSize`. -/
inductive PathChoice
  | split
  | wholeFile
deriving DecidableEq, Repr

/-- The path selection of `writeFileContents` (soong_zip.go:587-636). -/
def writePathChoice (h : FileHeader) : PathChoice :=
  if h.method = zipDeflate ∧ minParallelFileSize ≤ fileSizeOf h then .split
  else .wholeFile

-- Sanity checks: path selection and range generation on small inputs.
example :
    writePathChoice { name := "a", method := 8, uncompressedSize64 := 6291456,
                      uncompressedSize := 0 } = .split := by decide
example :
    writePathChoice { name := "a", method := 8, uncompressedSize64 := 6291455,
                      uncompressedSize := 0 } = .wholeFile := by decide
example :
    writePathChoice { name := "a", method := 0, uncompressedSize64 := 9000000,
                      uncompressedSize := 0 } = .wholeFile := by decide
example :
    (blockTasks [1, 2, 3] 3).map (fun t => t.start) = [0] := by decide
example :
    (blockTasks [1, 2, 3] 3).map (fun t => t.data) = [[1, 2, 3]] := by decide
example : (blockTasks [1, 2, 3] 3).map (fun t => t.last) = [true] := by decide

/-! ### Manifest synthesis `zipWriter.addManifest` (soong_zip.go:529-563) -/

/-- Bytes of a Go string literal, as produced by Go's `[]byte(s)`.  Every
string constant used by `addManifest` is plain ASCII, for which the UTF-8
encoding is one byte per character, the character's code point. -/
def goBytes (s : String) : List UInt8 :=
  s.toList.map (fun c => UInt8.ofNat c.toNat)

/-- Whether `needle` occurs at the very beginning of `hay`. -/
def leadingMatch : List UInt8 → List UInt8 → Bool
  | _, [] => true
  | [], _ :: _ => false
  | h :: hs, n :: ns => h = n && leadingMatch hs ns

/-- Embedding of Go `bytes.Contains(hay, needle)`: `needle` occurs as a
contiguous subslice of `hay`. -/
def bytesContains (needle : List UInt8) : List UInt8 → Bool
  | [] => leadingMatch [] needle
  | c :: t => leadingMatch (c :: t) needle || bytesContains needle t

/-- Embedding of `zipWriter.addManifest` (soong_zip.go:529-563), with the
file read abstracted to `givenBytes`.  After the duplicate-destination
checks, the payload is the given bytes verbatim when they contain the
literal `Manifest-Version:`, and otherwise
`"Manifest-Version: 1.0\nCreated-By: soong_zip\n"` followed by the given
bytes and one `'\n'`.  The entry header uses `zip.Store` and the payload
length. -/
def addManifest (dest src : String) (givenBytes : List UInt8) (st : ZState) :
    Except ZErr (FileHeader × List UInt8) :=
  match lookupAssoc st.createdDirs dest with
  | some prev => .error (.dirIsFile dest prev src)
  | none =>
    match lookupAssoc st.createdFiles dest with
    | some prev => .error (.twoFiles dest prev src)
    | none =>
      let manifestMarker := goBytes "Manifest-Version:"
      let header := manifestMarker ++ goBytes " 1.0\nCreated-By: soong_zip\n"
      let finalBytes :=
        if !bytesContains manifestMarker givenBytes then
          header ++ givenBytes ++ [10]
        else givenBytes
      .ok ({ name := dest, method := zipStore,
             uncompressedSize64 := finalBytes.length, uncompressedSize := 0 },
           finalBytes)

-- Sanity checks: manifest synthesis on concrete inputs.
example :
    (addManifest "META-INF/MANIFEST.MF" "mf" [] ⟨[], []⟩).map (fun p => p.2) =
      .ok (goBytes "Manifest-Version: 1.0\nCreated-By: soong_zip\n" ++ [10]) := by
  rfl
example :
    (addManifest "META-INF/MANIFEST.MF" "mf" (goBytes "Manifest-Version: 2.0\n")
        ⟨[], []⟩).map (fun p => p.2) =
      .ok (goBytes "Manifest-Version: 2.0\n") := by rfl

/-! ### Memory rate limiter

The limiter implementation lives in `cmd/soong_zip/rate_limit.go`, which is
not among the sources; only its call sites are.  It is therefore modelled
from the specification. -/

/-- Modelled from the spec: the `MemoryRateLimiter` of the missing
`rate_limit.go`.  Spec §3/§4.1: "Memory limiter: an integer byte counter; a
request of `n` bytes blocks until the counter plus `n` ≤ M, or, when M = 0
(unbounded), admits immediately but still tracks outstanding bytes for
later release"; "`finish(n)` releases `n` bytes". -/
structure MemoryRateLimiter where
  maxBytes : Int
  outstanding : Int
deriving DecidableEq, Repr

/-- Modelled from the spec: construction of a memory limiter with
high-water mark `max` and no outstanding bytes. -/
def NewMemoryRateLimiter (max : Int) : MemoryRateLimiter :=
  { maxBytes := max, outstanding := 0 }

/-- Modelled from the spec: whether `request n` would block on `m`
(it blocks until `outstanding + n ≤ M` unless `M = 0`). -/
def MemoryRateLimiter.wouldBlock (m : MemoryRateLimiter) (n : Int) : Bool :=
  decide (m.maxBytes ≠ 0 ∧ m.maxBytes < m.outstanding + n)

/-- Modelled from the spec: the state change of an admitted `request n`. -/
def MemoryRateLimiter.request (m : MemoryRateLimiter) (n : Int) :
    MemoryRateLimiter :=
  { m with outstanding := m.outstanding + n }

/-- Modelled from the spec: `finish n` releases `n` bytes. -/
def MemoryRateLimiter.finish (m : MemoryRateLimiter) (n : Int) :
    MemoryRateLimiter :=
  { m with outstanding := m.outstanding - n }

/-- The memory limiter exactly as `write` constructs it:
`NewMemoryRateLimiter(0)` (soong_zip.go:353). -/
def writeMemRateLimiter : MemoryRateLimiter := NewMemoryRateLimiter 0

/-- Runs a whole sequence of requests through a limiter, reporting whether
every single one is admitted without blocking. -/
def allRequestsAdmit (m : MemoryRateLimiter) : List Int → Bool
  | [] => true
  | n :: rest => !m.wouldBlock n && allRequestsAdmit (m.request n) rest

/-! ### The serializing writer loop of `zipWriter.write` (soong_zip.go:389-463)

The writer is a single-threaded select loop. Its four data sources are
`z.writeOps` (the FIFO of per-entry slots), the current slot, the current
entry's `futureReaders` sequence, and the current block's reader; the code
nils out all but exactly one of them before each `select`
(soong_zip.go:396-408), so apart from the error race the loop is a
deterministic state machine over the channel contents.  Worker completion
order only affects *when* a one-shot slot is filled, never its value or the
FIFO order, so the consumed values are schedule-independent and the
channels can be embedded by their contents: the FIFO as a list of resolved
entries, each entry's reader sequence as the list of its block buffers in
enqueue (range) order. -/

/-- A resolved write operation as the writer sees it: the entry header data
plus the contents of its `futureReaders` sequence (`none` embeds a nil
`futureReaders`, as for directory entries). -/
structure WriteOp where
  name : String
  method : UInt16
  blocks : Option (List (List UInt8))
  allocatedSize : Nat
deriving DecidableEq, Repr

/-- Observable actions of the writer loop, in order. -/
inductive WriterEv
  /-- `CreateCompressedHeader` / `CreateHeaderAndroid` call for an entry. -/
  | header (name : String) (method : UInt16)
  /-- `currentWriter.Close()` — the encoder entry is finished. -/
  | closeEntry
  /-- `io.Copy(currentWriter, reader)` of one block buffer. -/
  | blockBytes (buf : List UInt8)
  /-- `z.memoryRateLimiter.Finish(op.allocatedSize)`. -/
  | memFinish (n : Nat)
deriving DecidableEq, Repr

/-- The writer's state variables (soong_zip.go:389-393): the remaining FIFO
contents, `currentWriteOpChan`, `currentReaders`, and `currentReader`. -/
structure WriterState where
  ops : List WriteOp
  curOp : Option WriteOp
  curReaders : Option (List (List UInt8))
  curReader : Option (List UInt8)
deriving DecidableEq, Repr

/-- Events of the `op := <-writeOpChan` case (soong_zip.go:418-440): emit
the entry header; when `futureReaders` is nil close the encoder entry at
once; then release the entry's memory reservation. -/
def headerEvents (op : WriteOp) : List WriterEv :=
  [.header op.name op.method]
    ++ (match op.blocks with | none => [.closeEntry] | some _ => [])
    ++ [.memFinish op.allocatedSize]

/-- One iteration of the writer's select loop (soong_zip.go:395-463), with
the precedence of soong_zip.go:400-408: a pending block read first, then
the entry's reader sequence, then the current slot, then the FIFO.  Returns
the emitted events and the next state, or `none` when the FIFO is closed
and drained (`done`). -/
def wStep (st : WriterState) : Option (List WriterEv × WriterState) :=
  match st.curReader with
  | some buf => some ([.blockBytes buf], { st with curReader := none })
  | none =>
    match st.curReaders with
    | some (r :: rest) =>
      some ([], { st with curReaders := some rest, curReader := some r })
    | some [] => some ([.closeEntry], { st with curReaders := none })
    | none =>
      match st.curOp with
      | some op =>
        some (headerEvents op,
              { st with curOp := none, curReaders := op.blocks })
      | none =>
        match st.ops with
        | op :: rest => some ([], { st with ops := rest, curOp := some op })
        | [] => none

/-- Select iterations needed to drain a `futureReaders` sequence. -/
def blocksCost : Option (List (List UInt8)) → Nat
  | none => 0
  | some bs => 2 * bs.length + 1

/-- Select iterations needed to consume one FIFO slot completely. -/
def opCost (op : WriteOp) : Nat := 2 + blocksCost op.blocks

/-- Select iterations remaining from a writer state. -/
def stateCost (st : WriterState) : Nat :=
  (st.ops.map opCost).sum
    + (match st.curOp with | some op => 1 + blocksCost op.blocks | none => 0)
    + (match st.curReaders with | some rs => 2 * rs.length + 1 | none => 0)
    + (match st.curReader with | some _ => 1 | none => 0)

/-- Runs the writer's select loop, collecting the emitted events.  Each
iteration strictly decreases `stateCost`, so fuel `stateCost st` drains the
state completely. -/
def writerRun : Nat → WriterState → List WriterEv
  | 0, _ => []
  | fuel + 1, st =>
    match wStep st with
    | none => []
    | some (evs, st') => evs ++ writerRun fuel st'

/-- The full writer loop of `write` on a producer-ordered FIFO content. -/
def writeLoopRun (ops : List WriteOp) : List WriterEv :=
  writerRun (stateCost ⟨ops, none, none, none⟩) ⟨ops, none, none, none⟩

/-- The events one fully consumed slot contributes: its header events, then
its block buffers in enqueue order, then the entry close. -/
def opEvents (op : WriteOp) : List WriterEv :=
  headerEvents op
    ++ (match op.blocks with
        | none => []
        | some bs => bs.map .blockBytes ++ [.closeEntry])

/-- Expected remaining output from an arbitrary writer state. -/
def stateEvents (st : WriterState) : List WriterEv :=
  (match st.curReader with | some b => [.blockBytes b] | none => [])
    ++ (match st.curReaders with
        | some rs => rs.map .blockBytes ++ [.closeEntry]
        | none => [])
    ++ (match st.curOp with | some op => opEvents op | none => [])
    ++ st.ops.flatMap opEvents

/-- The per-mapping `zipEntry` production of `writeFileContents`
(soong_zip.go:565-639) as the writer will observe it: the accounting value
is the 64-bit uncompressed size (soong_zip.go:578); on the split path the
`futureReaders` sequence carries one compressed buffer per 1 MiB range in
range order (the slots are enqueued before the workers are dispatched,
soong_zip.go:607); on the single-shot path it carries exactly one buffer
and the header method may have been downgraded to STORE. -/
def producedOp (flate : FlateFn) (poolHit : Bool) (h : FileHeader)
    (content : List UInt8) : WriteOp :=
  match writePathChoice h with
  | .split =>
    { name := h.name, method := h.method,
      blocks := some ((blockTasks content (fileSizeOf h)).map
        (fun t => (compressBlock flate poolHit t.dict t.data t.last).2)),
      allocatedSize := h.uncompressedSize64 }
  | .wholeFile =>
    let r := compressWholeFile flate poolHit h content
    { name := h.name, method := r.method, blocks := some [r.payload],
      allocatedSize := h.uncompressedSize64 }

/-- The memory amounts released by a writer event sequence, in order. -/
def memFinishAmounts (evs : List WriterEv) : List Nat :=
  evs.filterMap (fun e => match e with | .memFinish n => some n | _ => none)

/-- The entry headers opened by a writer event sequence, in order. -/
def headersOf (evs : List WriterEv) : List (String × UInt16) :=
  evs.filterMap
    (fun e => match e with | .header n m => some (n, m) | _ => none)

/-- Statement-side restatement of the claimed manifest payload, following
the specification's words (spec §4.6 "Manifest synthesis"); to be compared
with the payload computed by `addManifest`. -/
def manifestPayloadSpec (given : List UInt8) : List UInt8 :=
  if bytesContains (goBytes "Manifest-Version:") given then given
  else goBytes "Manifest-Version: 1.0\nCreated-By: soong_zip\n" ++ given ++ [10]

/-- A concrete abstract flate semantics used by witnesses: compresses
everything to the empty output. -/
def constFlate : FlateFn := fun _ _ _ => []

/-- A concrete small DEFLATE-declared header used by witnesses. -/
def smallDeflateHeader : FileHeader :=
  { name := "f.txt", method := 8, uncompressedSize64 := 3,
    uncompressedSize := 0 }

/-- The concrete manifest payload for an empty manifest file, used by the
C9 witness. -/
def emptyManifestPayload : List UInt8 :=
  goBytes "Manifest-Version: 1.0\nCreated-By: soong_zip\n" ++ [10]

/-- The concrete manifest entry header for an empty manifest file, used by
the C9 witness. -/
def emptyManifestHeader : FileHeader :=
  { name := "META-INF/MANIFEST.MF", method := zipStore,
    uncompressedSize64 := emptyManifestPayload.length, uncompressedSize := 0 }

-- Sanity checks: the writer state machine on a concrete FIFO content.
example :
    writeLoopRun [{ name := "d/", method := 0, blocks := none, allocatedSize := 0 },
                  { name := "a", method := 8, blocks := some [[1], [2]],
                    allocatedSize := 7 }] =
      [.header "d/" 0, .closeEntry, .memFinish 0,
       .header "a" 8, .memFinish 7, .blockBytes [1], .blockBytes [2],
       .closeEntry] := by decide
example : allRequestsAdmit writeMemRateLimiter [5, 0, 1000000] = true := by decide

/-! ### Draining lemmas for the writer state machine -/

/-- With fuel at least the remaining select-iteration count, the writer
loop emits exactly the expected remaining output of its state. -/
theorem writerRun_eq_stateEvents (fuel : Nat) :
    ∀ st : WriterState, stateCost st ≤ fuel →
      writerRun fuel st = stateEvents st := by
  induction fuel with
  | zero =>
    rintro ⟨ops, curOp, curReaders, curReader⟩ h
    cases curReader with
    | some b => simp [stateCost] at h
    | none =>
      cases curReaders with
      | some rs => simp [stateCost] at h
      | none =>
        cases curOp with
        | some op => simp [stateCost] at h
        | none =>
          cases ops with
          | cons op rest => simp [stateCost, opCost] at h
          | nil => simp [writerRun, stateEvents]
  | succ n ih =>
    rintro ⟨ops, curOp, curReaders, curReader⟩ h
    cases curReader with
    | some b =>
      have hc : stateCost ⟨ops, curOp, curReaders, none⟩ ≤ n := by
        simp [stateCost] at h ⊢; omega
      simp [writerRun, wStep, ih _ hc, stateEvents]
    | none =>
      cases curReaders with
      | some rs =>
        cases rs with
        | cons r rest =>
          have hc : stateCost ⟨ops, curOp, some rest, some r⟩ ≤ n := by
            simp [stateCost] at h ⊢; omega
          simp [writerRun, wStep, ih _ hc, stateEvents]
        | nil =>
          have hc : stateCost ⟨ops, curOp, none, none⟩ ≤ n := by
            simp [stateCost] at h ⊢; omega
          simp [writerRun, wStep, ih _ hc, stateEvents]
      | none =>
        cases curOp with
        | some op =>
          cases hb : op.blocks with
          | none =>
            have hc : stateCost ⟨ops, none, none, none⟩ ≤ n := by
              simp [stateCost, blocksCost, hb] at h ⊢; omega
            simp [writerRun, wStep, hb, ih _ hc, stateEvents, opEvents,
              headerEvents]
          | some bs =>
            have hc : stateCost ⟨ops, none, some bs, none⟩ ≤ n := by
              simp [stateCost, blocksCost, hb] at h ⊢; omega
            simp [writerRun, wStep, hb, ih _ hc, stateEvents, opEvents,
              headerEvents]
        | none =>
          cases ops with
          | cons op rest =>
            have hc : stateCost ⟨rest, some op, none, none⟩ ≤ n := by
              simp [stateCost, opCost] at h ⊢; omega
            simp [writerRun, wStep, ih _ hc, stateEvents]
          | nil => simp [writerRun, wStep, stateEvents]

/-- The writer loop on a producer-ordered FIFO content outputs exactly the
per-entry event blocks, entry by entry in FIFO order. -/
theorem writeLoopRun_eq (ops : List WriteOp) :
    writeLoopRun ops = ops.flatMap opEvents := by
  have h := writerRun_eq_stateEvents (stateCost ⟨ops, none, none, none⟩)
    ⟨ops, none, none, none⟩ (Nat.le_refl _)
  simpa [writeLoopRun, stateEvents] using h

/-! ### Lemmas about the split path's range generation -/

/-- Rearrangement used to step the fuel bound through one loop iteration. -/
theorem succ_mul_shift (start n b : Nat) :
    start + (n + 1) * b = (start + b) + n * b := by ring

/-- The generation loop yields nothing exactly when `start` has reached
`fileSize`, for any fuel meeting the sufficiency bound. -/
theorem blockTasksAux_eq_nil_iff (c : List UInt8) (fs : Nat) :
    ∀ fuel start, fs ≤ start + fuel * parallelBlockSize →
      (blockTasksAux c fs fuel start = [] ↔ fs ≤ start) := by
  intro fuel start h
  cases fuel with
  | zero =>
    have h' : fs ≤ start := by simpa using h
    simp [blockTasksAux, h']
  | succ n =>
    by_cases hlt : start < fs
    · simp [blockTasksAux, hlt]
    · simp [blockTasksAux, hlt]
      omega

/-- Concatenating the sections of all generated ranges recovers the source
from `start` on. -/
theorem blockTasksAux_flatMap (c : List UInt8) :
    ∀ fuel start, c.length ≤ start + fuel * parallelBlockSize →
      (blockTasksAux c c.length fuel start).flatMap (fun t => t.data) =
        c.drop start := by
  intro fuel
  induction fuel with
  | zero =>
    intro start h
    have h' : c.length ≤ start := by simpa using h
    simp [blockTasksAux, List.drop_eq_nil_of_le h']
  | succ n ih =>
    intro start h
    by_cases hlt : start < c.length
    · have hrec := ih (start + parallelBlockSize)
        (le_of_le_of_eq h (succ_mul_shift start n parallelBlockSize))
      have hdd : (c.drop start).drop parallelBlockSize =
          c.drop (start + parallelBlockSize) := by
        rw [List.drop_drop, Nat.add_comm]
      simp only [blockTasksAux, hlt, if_true, List.flatMap_cons, hrec,
        mkBlockTask, sectionBytes]
      rw [← hdd]
      exact List.take_append_drop _ _
    · simp [blockTasksAux, hlt]
      omega

/-- The `i`-th generated range starts at offset `start + i * 1 MiB`. -/
theorem blockTasksAux_getElem_start (c : List UInt8) (fs : Nat) :
    ∀ fuel start i (h : i < (blockTasksAux c fs fuel start).length),
      (blockTasksAux c fs fuel start)[i].start =
        start + i * parallelBlockSize := by
  intro fuel
  induction fuel with
  | zero => intro start i h; simp [blockTasksAux] at h
  | succ n ih =>
    intro start i h
    by_cases hlt : start < fs
    · cases i with
      | zero => simp [blockTasksAux, hlt, mkBlockTask]
      | succ j =>
        have hlen : j < (blockTasksAux c fs n (start + parallelBlockSize)).length := by
          simp [blockTasksAux, hlt] at h
          omega
        have hrec := ih (start + parallelBlockSize) j hlen
        simp only [blockTasksAux, hlt, if_true, List.getElem_cons_succ, hrec]
        ring
    · simp [blockTasksAux, hlt] at h

/-- Every generated task is the loop body applied to its own start offset,
and its start offset lies inside the file. -/
theorem blockTasksAux_mem (c : List UInt8) (fs : Nat) :
    ∀ fuel start t, t ∈ blockTasksAux c fs fuel start →
      t.start < fs ∧ t = mkBlockTask c fs t.start := by
  intro fuel
  induction fuel with
  | zero => intro start t ht; simp [blockTasksAux] at ht
  | succ n ih =>
    intro start t ht
    by_cases hlt : start < fs
    · simp only [blockTasksAux, hlt, if_true, List.mem_cons] at ht
      cases ht with
      | inl he => subst he; exact ⟨hlt, by simp [mkBlockTask]⟩
      | inr hm => exact ih (start + parallelBlockSize) t hm
    · simp [blockTasksAux, hlt] at ht

/-- The last-block flag of the `i`-th generated range is set exactly when
that range is the final one. -/
theorem blockTasksAux_last_iff (c : List UInt8) (fs : Nat) :
    ∀ fuel start, fs ≤ start + fuel * parallelBlockSize →
      ∀ i (h : i < (blockTasksAux c fs fuel start).length),
        ((blockTasksAux c fs fuel start)[i].last = true ↔
          i = (blockTasksAux c fs fuel start).length - 1) := by
  intro fuel
  induction fuel with
  | zero => intro start hb i h; simp [blockTasksAux] at h
  | succ n ih =>
    intro start hb i h
    have hb' : fs ≤ (start + parallelBlockSize) + n * parallelBlockSize :=
      le_of_le_of_eq hb (succ_mul_shift start n parallelBlockSize)
    have hnil := blockTasksAux_eq_nil_iff c fs n (start + parallelBlockSize) hb'
    by_cases hlt : start < fs
    · cases i with
      | zero =>
        simp only [blockTasksAux, hlt, if_true, List.getElem_cons_zero,
          List.length_cons, Nat.add_sub_cancel, mkBlockTask]
        by_cases hlast : start + parallelBlockSize < fs
        · have hne : blockTasksAux c fs n (start + parallelBlockSize) ≠ [] := by
            rw [Ne, hnil]
            omega
          have hpos := List.length_pos.mpr hne
          simp [hlast]
          omega
        · have hn : blockTasksAux c fs n (start + parallelBlockSize) = [] :=
            hnil.mpr (by omega)
          simp [hlast, hn]
      | succ j =>
        have hlen : j < (blockTasksAux c fs n (start + parallelBlockSize)).length := by
          simp [blockTasksAux, hlt] at h
          omega
        have hrec := ih (start + parallelBlockSize) hb' j hlen
        simp only [blockTasksAux, hlt, if_true, List.getElem_cons_succ,
          List.length_cons, Nat.add_sub_cancel, hrec]
        omega
    · simp [blockTasksAux, hlt] at h

/-- The fuel `blockTasks` supplies covers the whole file. -/
theorem blockTasks_fuel_bound (fs : Nat) :
    fs ≤ 0 + (fs / parallelBlockSize + 1) * parallelBlockSize := by
  show fs ≤ 0 + (fs / 1048576 + 1) * 1048576
  omega

/-! ### Projection lemmas over writer event sequences -/

/-- One consumed slot releases exactly its own `allocatedSize`, once. -/
theorem memFinishAmounts_opEvents (op : WriteOp) :
    memFinishAmounts (opEvents op) = [op.allocatedSize] := by
  cases hb : op.blocks with
  | none =>
    simp [memFinishAmounts, opEvents, headerEvents, hb]
  | some bs =>
    simp [memFinishAmounts, opEvents, headerEvents, hb, List.filterMap_append,
      List.filterMap_map, Function.comp]

/-- Per-slot memory releases of a whole run, in FIFO order. -/
theorem memFinishAmounts_flatMap (ops : List WriteOp) :
    memFinishAmounts (ops.flatMap opEvents) =
      ops.map (fun op => op.allocatedSize) := by
  induction ops with
  | nil => simp [memFinishAmounts]
  | cons op rest ih =>
    have hop := memFinishAmounts_opEvents op
    simp only [List.flatMap_cons, memFinishAmounts, List.filterMap_append]
    simp only [memFinishAmounts] at hop ih
    rw [hop, ih]
    simp

/-- One consumed slot opens exactly its own header, once. -/
theorem headersOf_opEvents (op : WriteOp) :
    headersOf (opEvents op) = [(op.name, op.method)] := by
  cases hb : op.blocks with
  | none =>
    simp [headersOf, opEvents, headerEvents, hb]
  | some bs =>
    simp [headersOf, opEvents, headerEvents, hb, List.filterMap_append,
      List.filterMap_map, Function.comp]

/-- Headers of a whole run appear in FIFO order. -/
theorem headersOf_flatMap (ops : List WriteOp) :
    headersOf (ops.flatMap opEvents) =
      ops.map (fun op => (op.name, op.method)) := by
  induction ops with
  | nil => simp [headersOf]
  | cons op rest ih =>
    have hop := headersOf_opEvents op
    simp only [List.flatMap_cons, headersOf, List.filterMap_append]
    simp only [headersOf] at hop ih
    rw [hop, ih]
    simp

/-! ### Memory limiter lemmas -/

/-- With a zero high-water mark no request ever blocks, whatever the
request sequence. -/
theorem allRequestsAdmit_of_max_zero :
    ∀ (ns : List Int) (m : MemoryRateLimiter), m.maxBytes = 0 →
      allRequestsAdmit m ns = true := by
  intro ns
  induction ns with
  | nil => intro m h; simp [allRequestsAdmit]
  | cons n rest ih =>
    intro m h
    simp only [allRequestsAdmit, MemoryRateLimiter.wouldBlock, h,
      Bool.and_eq_true]
    constructor
    · simp
    · exact ih _ (by simp [MemoryRateLimiter.request, h])

/-! ### Wrapper lemmas at the `blockTasks` level -/

/-- The `i`-th range of the split path starts at `i * 1 MiB`. -/
theorem blockTasks_getElem_start (c : List UInt8) (i : Nat)
    (hi : i < (blockTasks c c.length).length) :
    (blockTasks c c.length)[i].start = i * parallelBlockSize := by
  have h := blockTasksAux_getElem_start c c.length
    (c.length / parallelBlockSize + 1) 0 i (by simpa [blockTasks] using hi)
  simpa [blockTasks] using h

/-- Every range of the split path is the loop body at its own start, which
lies inside the file. -/
theorem blockTasks_mem_shape (c : List UInt8) (t : BlockTask)
    (ht : t ∈ blockTasks c c.length) :
    t.start < c.length ∧ t = mkBlockTask c c.length t.start :=
  blockTasksAux_mem c c.length (c.length / parallelBlockSize + 1) 0 t
    (by simpa [blockTasks] using ht)

/-! ### Claim theorems -/

/-- C1: the claim states that in jar mode with directory emission the
`META-INF/` directory entry carries the 4-byte extra field
`0xFE 0xCA 0x00 0x00`.  The code never adds it: the check at
soong_zip.go:822 compares the *mutated loop variable* `dir` — which after
the discovery loop is `"."`, `""`, or an already-created cleaned path, never
a string with a trailing slash other than `"/"` — against `"META-INF/"`.
This theorem evaluates the embedded `writeDirectory` at the failing input
(jar emulation on, directories on, fresh state, directory `META-INF`): the
emitted `META-INF/` entry has an empty extra field, while `cafeExtra` shows
the 4 bytes the source intended. -/
theorem claim_C1_metainf_extra_missing :
    writeDirectory true true "META-INF" "mf.txt" ⟨[], []⟩ =
      .ok (⟨[("META-INF", "mf.txt")], []⟩,
        [{ name := "META-INF/", extra := [] }]) ∧
    cafeExtra = [0xfe, 0xca, 0x00, 0x00] :=
  ⟨rfl, rfl⟩

/-- C2: for an entry on the single-shot path with declared method DEFLATE,
the output method is STORE iff the deflated size is at least the
uncompressed size; when strictly smaller the compressed bytes are used with
DEFLATE, otherwise the raw bytes with STORE (soong_zip.go:741-757). -/
theorem claim_C2_single_shot_fallback (flate : FlateFn) (poolHit : Bool)
    (h : FileHeader) (content : List UInt8) (hm : h.method = zipDeflate) :
    ((compressWholeFile flate poolHit h content).method = zipStore ↔
      h.uncompressedSize64 ≤
        ((compressBlock flate poolHit [] content true).2).length) ∧
    (((compressBlock flate poolHit [] content true).2).length <
        h.uncompressedSize64 →
      compressWholeFile flate poolHit h content =
        { method := zipDeflate,
          payload := (compressBlock flate poolHit [] content true).2 }) ∧
    (h.uncompressedSize64 ≤
        ((compressBlock flate poolHit [] content true).2).length →
      compressWholeFile flate poolHit h content =
        { method := zipStore, payload := content }) := by
  have hcw : compressWholeFile flate poolHit h content =
      (if ((compressBlock flate poolHit [] content true).2).length <
          h.uncompressedSize64 then
        ({ method := zipDeflate,
           payload := (compressBlock flate poolHit [] content true).2 }
          : WholeFileResult)
      else { method := zipStore, payload := content }) := by
    simp [compressWholeFile, hm]
  by_cases hlt : ((compressBlock flate poolHit [] content true).2).length <
      h.uncompressedSize64
  · rw [hcw, if_pos hlt]
    exact ⟨iff_of_false (by show ¬(zipDeflate = zipStore); decide) (by omega),
      fun _ => rfl, fun hge => absurd hlt (by omega)⟩
  · rw [hcw, if_neg hlt]
    exact ⟨iff_of_true rfl (by omega), fun hlt2 => absurd hlt2 hlt,
      fun _ => rfl⟩

/-- Witness for C2: a 3-byte DEFLATE entry whose abstract compressor
returns the empty buffer, so the compressed result is strictly smaller and
DEFLATE is kept. -/
theorem claim_C2_witness :
    smallDeflateHeader.method = zipDeflate ∧
    (((compressWholeFile constFlate false smallDeflateHeader
          [1, 2, 3]).method = zipStore ↔
      smallDeflateHeader.uncompressedSize64 ≤
        ((compressBlock constFlate false [] [1, 2, 3] true).2).length) ∧
    (((compressBlock constFlate false [] [1, 2, 3] true).2).length <
        smallDeflateHeader.uncompressedSize64 →
      compressWholeFile constFlate false smallDeflateHeader [1, 2, 3] =
        { method := zipDeflate,
          payload := (compressBlock constFlate false [] [1, 2, 3] true).2 }) ∧
    (smallDeflateHeader.uncompressedSize64 ≤
        ((compressBlock constFlate false [] [1, 2, 3] true).2).length →
      compressWholeFile constFlate false smallDeflateHeader [1, 2, 3] =
        { method := zipStore, payload := [1, 2, 3] })) :=
  ⟨rfl, claim_C2_single_shot_fallback constFlate false smallDeflateHeader
    [1, 2, 3] rfl⟩

/-- C3: the claim states that every error returned by the write operation
after the output file was created removes the partial output, including the
manifest-without-jar error.  The code contradicts this for exactly that
error: soong_zip.go:361 executes `return errors.New(...)` without assigning
the local `err`, so the deferred `if err != nil { os.Remove(out) }`
(soong_zip.go:330-334) does not fire and the created output file is left
behind; errors surfaced through `err` (producer, worker, writer I/O) do
remove it.  This theorem evaluates the embedded control flow at the failing
input and contrasts it with two removing paths. -/
theorem claim_C3_manifest_error_keeps_output :
    writeFlow none "mf.txt" false none =
      { result := some .manifestRequiresJar, outputCreated := true,
        outputRemoved := false } ∧
    (writeFlow none "" false (some .writerIOError)).outputRemoved = true ∧
    (writeFlow none "mf.txt" true (some .workerError)).outputRemoved = true := by
  exact ⟨rfl, rfl, rfl⟩

/-- C4 counterexample: with `-o out.zip -m mf.txt` and no `-jar`, the
process exits with code 1 (the runtime-error path through `main`,
soong_zip.go:280-285), not with the usage exit code 2 as claimed. -/
theorem claim_C4_counterexample :
    mainExitCode "out.zip" "mf.txt" false none none = 1 ∧
    mainExitCode "out.zip" "mf.txt" false none none ≠ 2 := by
  decide

/-- C4 (amended): supplying `-m` without `-jar` is surfaced as an error
returned by the write operation and exits with the runtime exit code 1;
the usage exit code 2 is used for flag-parse failures and a missing `-o`,
not for this error. -/
theorem claim_C4_manifest_exit_code (outArg manifestArg : String)
    (loopResult : Option ZErr) (ho : outArg ≠ "") (hm : manifestArg ≠ "") :
    (writeFlow none manifestArg false loopResult).result =
      some .manifestRequiresJar ∧
    mainExitCode outArg manifestArg false none loopResult = 1 := by
  have hw : writeFlow none manifestArg false loopResult =
      { result := some .manifestRequiresJar, outputCreated := true,
        outputRemoved := false } := by
    simp [writeFlow, hm]
  exact ⟨by rw [hw], by simp [mainExitCode, ho, hw]⟩

/-- Witness for C4 (amended) at the concrete flags of the counterexample. -/
theorem claim_C4_witness :
    ("out.zip" : String) ≠ "" ∧ ("mf.txt" : String) ≠ "" ∧
    ((writeFlow none "mf.txt" false none).result =
        some .manifestRequiresJar ∧
      mainExitCode "out.zip" "mf.txt" false none none = 1) :=
  ⟨by decide, by decide,
    claim_C4_manifest_exit_code "out.zip" "mf.txt" none (by decide) (by decide)⟩

/-- C5: an entry is compressed on the split path iff its declared method is
DEFLATE and its file size is at least 6 MiB (soong_zip.go:587); everything
else goes through the single-shot path, which produces its payload in one
piece (one future reader, soong_zip.go:736-739). -/
theorem claim_C5_path_selection (h : FileHeader) :
    (writePathChoice h = .split ↔
      h.method = zipDeflate ∧ 6 * (1 * 1024 * 1024) ≤ fileSizeOf h) ∧
    (∀ (flate : FlateFn) (poolHit : Bool) (content : List UInt8),
      writePathChoice h = .wholeFile →
      (producedOp flate poolHit h content).blocks =
        some [(compressWholeFile flate poolHit h content).payload]) := by
  constructor
  · unfold writePathChoice
    by_cases hc : h.method = zipDeflate ∧ minParallelFileSize ≤ fileSizeOf h
    · rw [if_pos hc]
      refine iff_of_true rfl ⟨hc.1, ?_⟩
      have h2 := hc.2
      simp only [minParallelFileSize, parallelBlockSize] at h2
      omega
    · rw [if_neg hc]
      refine iff_of_false (by decide) ?_
      rintro ⟨h1, h2⟩
      refine hc ⟨h1, ?_⟩
      simp only [minParallelFileSize, parallelBlockSize]
      omega
  · intro flate poolHit content hw
    simp [producedOp, hw]

/-- Witness for C5: a small DEFLATE entry goes through the single-shot
path with exactly one payload buffer. -/
theorem claim_C5_witness :
    writePathChoice smallDeflateHeader = .wholeFile ∧
    (producedOp constFlate false smallDeflateHeader [1, 2, 3]).blocks =
      some [(compressWholeFile constFlate false smallDeflateHeader
        [1, 2, 3]).payload] :=
  ⟨by decide, (claim_C5_path_selection smallDeflateHeader).2 constFlate false
    [1, 2, 3] (by decide)⟩

/-- C6: on the split path the source is partitioned into consecutive 1 MiB
ranges (their sections concatenate back to the source and the `i`-th range
starts at `i * 1 MiB`); a range starting at an offset of at least 32 KiB is
compressed with a dictionary equal to the 32 KiB of source bytes
immediately preceding it, any range starting below 32 KiB — hence the first
range — has an empty dictionary, and the last-block flag is true exactly
for the final range (soong_zip.go:604-622). -/
theorem claim_C6_split_ranges (content : List UInt8)
    (hmin : minParallelFileSize ≤ content.length) :
    ((blockTasks content content.length).flatMap (fun t => t.data) =
      content) ∧
    (∀ i (hi : i < (blockTasks content content.length).length),
      (blockTasks content content.length)[i].start =
        i * parallelBlockSize) ∧
    (∀ t ∈ blockTasks content content.length, windowSize ≤ t.start →
      t.dict = (content.drop (t.start - windowSize)).take windowSize ∧
      t.dict.length = windowSize) ∧
    (∀ t ∈ blockTasks content content.length, t.start < windowSize →
      t.dict = []) ∧
    (∀ hpos : 0 < (blockTasks content content.length).length,
      (blockTasks content content.length)[0].dict = []) ∧
    (∀ i (hi : i < (blockTasks content content.length).length),
      ((blockTasks content content.length)[i].last = true ↔
        i = (blockTasks content content.length).length - 1)) := by
  have hbound := blockTasks_fuel_bound content.length
  refine ⟨?_, ?_, ?_, ?_, ?_, ?_⟩
  · have h := blockTasksAux_flatMap content
      (content.length / parallelBlockSize + 1) 0 hbound
    simpa [blockTasks] using h
  · intro i hi
    exact blockTasks_getElem_start content i hi
  · intro t ht hwd
    obtain ⟨hlt, hshape⟩ := blockTasks_mem_shape content t ht
    constructor
    · rw [hshape]
      simp only [mkBlockTask]
      rw [if_pos hwd]
      simp [sectionBytes]
    · rw [hshape]
      simp only [mkBlockTask]
      rw [if_pos hwd]
      simp only [sectionBytes]
      rw [List.length_take, List.length_drop]
      omega
  · intro t ht hwd
    obtain ⟨hlt, hshape⟩ := blockTasks_mem_shape content t ht
    rw [hshape]
    simp only [mkBlockTask]
    rw [if_neg (by omega)]
  · intro hpos
    have h0 := blockTasks_getElem_start content 0 hpos
    obtain ⟨hlt, hshape⟩ := blockTasks_mem_shape content
      (blockTasks content content.length)[0] (List.getElem_mem hpos)
    rw [hshape]
    simp only [mkBlockTask]
    rw [if_neg (by simp only [windowSize]; omega)]
  · intro i hi
    have h := blockTasksAux_last_iff content content.length
      (content.length / parallelBlockSize + 1) 0 hbound i
      (by simpa [blockTasks] using hi)
    simpa [blockTasks] using h

/-- Witness for C6 at a concrete 6 MiB input. -/
theorem claim_C6_witness :
    minParallelFileSize ≤
      (List.replicate minParallelFileSize (0 : UInt8)).length ∧
    ((blockTasks (List.replicate minParallelFileSize (0 : UInt8))
        (List.replicate minParallelFileSize (0 : UInt8)).length).flatMap
      (fun t => t.data) =
      List.replicate minParallelFileSize (0 : UInt8)) :=
  ⟨by simp, (claim_C6_split_ranges
    (List.replicate minParallelFileSize (0 : UInt8)) (by simp)).1⟩

/-- C7: `compressBlock` closes the stream (final block) exactly when the
last flag is set and sync-flushes otherwise; a stream seeded with a
non-empty dictionary is freshly created and never returned to the pool,
while with an empty dictionary the stream comes from the pool (reset) or is
freshly created, and is returned to the pool when the call completes
(soong_zip.go:671-703). -/
theorem claim_C7_compress_block_contract (flate : FlateFn) (poolHit : Bool)
    (dict input : List UInt8) (last : Bool) :
    ((compressBlock flate poolHit dict input last).1.finished = .closed ↔
      last = true) ∧
    (0 < dict.length →
      (compressBlock flate poolHit dict input last).1.source =
        .freshWithDict ∧
      (compressBlock flate poolHit dict input last).1.returnedToPool =
        false) ∧
    (dict.length = 0 →
      (compressBlock flate poolHit dict input last).1.source =
        (if poolHit then .pooledReset else .freshNew) ∧
      (compressBlock flate poolHit dict input last).1.returnedToPool =
        true) := by
  by_cases hd : 0 < dict.length
  · refine ⟨?_, fun _ => by simp [compressBlock, hd],
      fun h0 => absurd hd (by omega)⟩
    cases last with
    | true => simp [compressBlock, hd]
    | false => simp [compressBlock, hd]
  · refine ⟨?_, fun hp => absurd hp hd, fun _ => by simp [compressBlock, hd]⟩
    cases last with
    | true => simp [compressBlock, hd]
    | false => simp [compressBlock, hd]

/-- Witness for C7: a dictionary-seeded call is fresh and unpooled, and a
pool-hit call without dictionary resets the pooled writer and returns it. -/
theorem claim_C7_witness :
    ((compressBlock constFlate false [97] [1] true).1.source =
        .freshWithDict ∧
      (compressBlock constFlate false [97] [1] true).1.returnedToPool =
        false) ∧
    ((compressBlock constFlate true [] [1] false).1.source =
        (if true then FwSource.pooledReset else FwSource.freshNew) ∧
      (compressBlock constFlate true [] [1] false).1.returnedToPool =
        true) :=
  ⟨(claim_C7_compress_block_contract constFlate false [97] [1] true).2.1
      (by decide),
    (claim_C7_compress_block_contract constFlate true [] [1] false).2.2
      (by decide)⟩

/-- C8: for any sequence of write operations enqueued by the producer (the
mapping order, after the jar sort when enabled), the writer loop emits the
per-entry event blocks in exactly that order — in particular the opened
entry headers appear in producer order — and within each entry the block
buffers are copied in the order they were enqueued, which is range order.
Worker completion order cannot influence this: the writer reads from one
channel at a time and channels deliver the values modelled here. -/
theorem claim_C8_entry_and_block_order (ops : List WriteOp) :
    writeLoopRun ops = ops.flatMap opEvents ∧
    headersOf (writeLoopRun ops) =
      ops.map (fun op => (op.name, op.method)) := by
  refine ⟨writeLoopRun_eq ops, ?_⟩
  rw [writeLoopRun_eq, headersOf_flatMap]

/-- C9: whenever `addManifest` succeeds, the written payload is the given
bytes verbatim when they contain the literal `Manifest-Version:`, and
otherwise `"Manifest-Version: 1.0\nCreated-By: soong_zip\n"` followed by
the given bytes and one trailing newline; the manifest entry uses method
STORE and its size is the payload length (soong_zip.go:529-563). -/
theorem claim_C9_manifest_payload (dest src : String) (given : List UInt8)
    (st : ZState) (fh : FileHeader) (payload : List UInt8)
    (hok : addManifest dest src given st = .ok (fh, payload)) :
    payload = manifestPayloadSpec given ∧ fh.method = zipStore ∧
    fh.uncompressedSize64 = payload.length := by
  unfold addManifest at hok
  cases hd : lookupAssoc st.createdDirs dest with
  | some prev => rw [hd] at hok; simp at hok
  | none =>
    rw [hd] at hok
    cases hf : lookupAssoc st.createdFiles dest with
    | some prev => rw [hf] at hok; simp at hok
    | none =>
      rw [hf] at hok
      simp only [Except.ok.injEq, Prod.mk.injEq] at hok
      obtain ⟨hfh, hpl⟩ := hok
      have hconcat : goBytes "Manifest-Version:" ++
          goBytes " 1.0\nCreated-By: soong_zip\n" =
          goBytes "Manifest-Version: 1.0\nCreated-By: soong_zip\n" := by
        decide
      subst hpl
      subst hfh
      refine ⟨?_, rfl, rfl⟩
      by_cases hc : bytesContains (goBytes "Manifest-Version:") given = true
      · simp [manifestPayloadSpec, hc]
      · simp only [Bool.not_eq_true] at hc
        simp [manifestPayloadSpec, hc, hconcat]

/-- Witness for C9 at an empty manifest file. -/
theorem claim_C9_witness :
    addManifest "META-INF/MANIFEST.MF" "mf.txt" [] ⟨[], []⟩ =
      .ok (emptyManifestHeader, emptyManifestPayload) ∧
    (emptyManifestPayload = manifestPayloadSpec [] ∧
      emptyManifestHeader.method = zipStore ∧
      emptyManifestHeader.uncompressedSize64 = emptyManifestPayload.length) :=
  ⟨by rfl, claim_C9_manifest_payload "META-INF/MANIFEST.MF" "mf.txt" []
    ⟨[], []⟩ emptyManifestHeader emptyManifestPayload (by rfl)⟩

/-- C10: `write` constructs its memory limiter with a high-water mark of 0
(soong_zip.go:353), under which no request sequence ever blocks; every file
entry's accounting value equals its 64-bit uncompressed size, requested
before compression is dispatched (soong_zip.go:578-580), and the writer
releases exactly the per-entry accounting value once per entry as it
consumes the FIFO (soong_zip.go:440), keeping requests and releases
symmetric. -/
theorem claim_C10_memory_accounting :
    writeMemRateLimiter.maxBytes = 0 ∧
    (∀ ns : List Int, allRequestsAdmit writeMemRateLimiter ns = true) ∧
    (∀ (flate : FlateFn) (poolHit : Bool) (h : FileHeader)
        (content : List UInt8),
      (producedOp flate poolHit h content).allocatedSize =
        h.uncompressedSize64) ∧
    (∀ ops : List WriteOp,
      memFinishAmounts (writeLoopRun ops) =
        ops.map (fun op => op.allocatedSize)) := by
  refine ⟨rfl, ?_, ?_, ?_⟩
  · intro ns
    exact allRequestsAdmit_of_max_zero ns _ rfl
  · intro flate poolHit h content
    cases hpc : writePathChoice h with
    | split => simp [producedOp, hpc]
    | wholeFile => simp [producedOp, hpc]
  · intro ops
    rw [writeLoopRun_eq, memFinishAmounts_flatMap]

end SoongZip
